import Mathlib

/-!
Verification development for the ScanForge point-cloud codec engine.

Shallow embedding of the three codec components of the repository:
the LZF compression codec (`src/LZFCodec.hpp`), the field-table binary
codec for the PCD container (`src/PCDLoader.hpp`, `src/PointCloudTypes.hpp`)
and the fixed-format record codec for the LAS container
(`src/LASProcessor.hpp`).

Bytes are modelled as `Nat` values (a `uint8_t` always holds a value
below 256; hypotheses state that bound where a claim depends on it).
Machine-integer narrowing is made explicit with `%` where it matters.
IEEE-754 `float` values are modelled by their 32-bit little-endian bit
patterns, which is exact for the bit-copying PCD binary codec.  The
double-precision scale/offset arithmetic of the LAS codec is modelled
over `ℚ`; the concrete inputs used in theorems about it are values at
which the double computation is exact.

The file is organised as definitions first, theorems second.
-/

namespace ScanForge

/-! ## Definitions: LZF codec (`src/LZFCodec.hpp`) -/

namespace LZFCodec

/-- Byte-by-byte back-reference copy loop of `decompress_generic`
(`LZFCodec.hpp` lines 143-145).  Each step appends the byte sitting
`offset` positions before the current end of the output, so the source
window slides forward as the output grows and overlapping copies
replicate runs. -/
def copyBack (out : List Nat) (offset : Nat) : Nat → List Nat
  | 0 => out
  | n + 1 => copyBack (out ++ [out.getD (out.length - offset) 0]) offset n

/-- Embedding of `LZFCodec::decompress_generic` (`LZFCodec.hpp` lines
104-149).  First argument: the remaining compressed input; second: the
output produced so far; third: the total capacity of the output buffer
(`out_end`).  `none` models the `return 0` error paths; `some out`
models normal loop exit, returning the bytes written. -/
def decompress_generic : List Nat → List Nat → Nat → Option (List Nat)
  | [], out, _ => some out
  | ctrl :: rest, out, cap =>
    if cap ≤ out.length then some out
    else if ctrl < 32 then
      -- literal run: ctrl + 1 bytes
      if cap - out.length < ctrl + 1 ∨ rest.length < ctrl + 1 then none
      else decompress_generic (rest.drop (ctrl + 1)) (out ++ rest.take (ctrl + 1)) cap
    else
      -- back reference
      match rest with
      | [] => none  -- truncated input
      | b1 :: rest1 =>
        if ctrl >>> 5 = 7 then
          -- extended length: one extra byte added to the base length
          match rest1 with
          | [] => none  -- truncated input
          | b2 :: rest2 =>
            if out.length < ((ctrl &&& 0x1f) <<< 8) + b2 + 1 then none
            else if cap - out.length < ((ctrl >>> 5) + b1) + 2 then none
            else
              decompress_generic rest2
                (copyBack out (((ctrl &&& 0x1f) <<< 8) + b2 + 1) (((ctrl >>> 5) + b1) + 2)) cap
        else
          if out.length < ((ctrl &&& 0x1f) <<< 8) + b1 + 1 then none
          else if cap - out.length < (ctrl >>> 5) + 2 then none
          else
            decompress_generic rest1
              (copyBack out (((ctrl &&& 0x1f) <<< 8) + b1 + 1) ((ctrl >>> 5) + 2)) cap
termination_by inp => inp.length
decreasing_by
  all_goals (simp [List.length_drop] <;> omega)

/-- Embedding of the vector overload `LZFCodec::decompress`
(`LZFCodec.hpp` lines 40-50): decode into a buffer of capacity
`expectedSize` and return the empty vector when the byte-level decoder
failed (returned 0) or produced a byte count different from
`expectedSize`. -/
def decompress (compressed : List Nat) (expectedSize : Nat) : List Nat :=
  match decompress_generic compressed [] expectedSize with
  | none => []
  | some uncompressed => if uncompressed.length = expectedSize then uncompressed else []

/-- Embedding of `LZFCodec::compress_generic` (`LZFCodec.hpp` lines
165-196): literal-only encoding.  The input is cut into chunks of at
most 31 bytes; each chunk is emitted behind a control byte holding its
length minus one.  Second argument: the output written so far; third:
the output capacity.  `none` models the `return 0` path taken when the
capacity check fails; when that check passes the subsequent copy loop
always finds room for the whole chunk, so it is modelled as a complete
copy. -/
def compress_generic : List Nat → List Nat → Nat → Option (List Nat)
  | [], acc, _ => some acc
  | x :: xs, acc, cap =>
    if cap < acc.length + (((x :: xs).take 31).length + 1) then none
    else
      compress_generic ((x :: xs).drop 31)
        (acc ++ (((x :: xs).take 31).length - 1) :: (x :: xs).take 31) cap
termination_by inp => inp.length
decreasing_by
  all_goals (simp [List.length_drop] <;> omega)

/-- Embedding of the vector overload `LZFCodec::compress`
(`LZFCodec.hpp` lines 71-85): compress into a buffer of capacity
`n + n/8 + 16` and return the empty vector when the byte-level encoder
wrote 0 bytes (the failure indicator — which is also what a successful
encode of the empty input produces). -/
def compress (uncompressed : List Nat) : List Nat :=
  match compress_generic uncompressed []
      (uncompressed.length + uncompressed.length / 8 + 16) with
  | none => []
  | some compressed => if compressed.length = 0 then [] else compressed

/-- Literal-run encoding described by the claims: the input split into
runs of at most 31 bytes, each prefixed by a control byte equal to the
run length minus one.  Written from the specification's words; compared
against `compress_generic` in the theorems below. -/
def literalRunsEncoding : List Nat → List Nat
  | [] => []
  | x :: xs =>
    (((x :: xs).take 31).length - 1) ::
      ((x :: xs).take 31 ++ literalRunsEncoding ((x :: xs).drop 31))
termination_by inp => inp.length
decreasing_by
  all_goals (simp [List.length_drop] <;> omega)

/-- Forward byte-by-byte copy as the specification describes it: copy
bytes one at a time starting at absolute source position `src`
(initially `currentOutputPosition - distance`), each byte read from the
current output, so overlapping ranges replicate runs. -/
def specCopyForward (out : List Nat) (src : Nat) : Nat → List Nat
  | 0 => out
  | n + 1 => specCopyForward (out ++ [out.getD src 0]) (src + 1) n

/-- Decoder transcribed from the specification's words (spec §4.1): a
control byte below 32 begins a literal run of `control+1` verbatim
bytes; a control byte of at least 32 begins a back-reference of base
length `control >> 5` — read one extension byte and add it when the
base is 7 — with distance `((control & 0x1F) << 8) + nextByte + 1` and
copy length `baseLength + 2`, copied byte-by-byte starting at
`currentOutputPosition - distance`; failure on truncated input, on a
distance exceeding the bytes already produced, and on output-capacity
overflow.  Shifts and masks are spelled with `/`, `%` and `*` here, and
the extended copy length with the literal base 7, so this definition is
compared against the source-faithful `decompress_generic` rather than
being a copy of it. -/
def lzfDecodeSpec : List Nat → List Nat → Nat → Option (List Nat)
  | [], out, _ => some out
  | control :: rest, out, cap =>
    if cap ≤ out.length then some out
    else if control < 32 then
      if cap - out.length < control + 1 ∨ rest.length < control + 1 then none
      else lzfDecodeSpec (rest.drop (control + 1)) (out ++ rest.take (control + 1)) cap
    else
      match rest with
      | [] => none
      | e :: rest1 =>
        if control / 32 = 7 then
          match rest1 with
          | [] => none
          | d :: rest2 =>
            if out.length < (control % 32) * 256 + d + 1 then none
            else if cap - out.length < (7 + e) + 2 then none
            else
              lzfDecodeSpec rest2
                (specCopyForward out (out.length - ((control % 32) * 256 + d + 1)) ((7 + e) + 2))
                cap
        else
          if out.length < (control % 32) * 256 + e + 1 then none
          else if cap - out.length < control / 32 + 2 then none
          else
            lzfDecodeSpec rest1
              (specCopyForward out (out.length - ((control % 32) * 256 + e + 1)) (control / 32 + 2))
              cap
termination_by inp => inp.length
decreasing_by
  all_goals (simp [List.length_drop] <;> omega)

end LZFCodec

/-! ## Definitions: LAS fixed-format codec (`src/LASProcessor.hpp`) -/

namespace LASProcessor

/-- Embedding of `LASProcessor::getPointRecordLength` (`LASProcessor.hpp`
lines 257-284): record byte length per point-format number, with the
switch's default of 20. -/
def getPointRecordLength (format : Nat) : Nat :=
  match format with
  | 0 => 20
  | 1 => 28
  | 2 => 26
  | 3 => 34
  | 4 => 57
  | 5 => 63
  | 6 => 30
  | 7 => 36
  | 8 => 38
  | 9 => 59
  | 10 => 67
  | _ => 20

/-- Embedding of `LASHeader::hasRGB` (`LASProcessor.hpp` lines 87-90) as
a function of the header's point-format number: formats 2, 3, 7, 8
and 10.  Note that the source does not list `FORMAT_5` here. -/
def hasRGB (format : Nat) : Bool :=
  format == 2 || format == 3 || format == 7 || format == 8 || format == 10

/-- Embedding of `LASHeader::hasGPSTime` (`LASProcessor.hpp` lines
92-95) as a function of the header's point-format number: formats 1, 3,
4, 5 or any format number of at least 6. -/
def hasGPSTime (format : Nat) : Bool :=
  format == 1 || format == 3 || format == 4 || format == 5 || decide (6 ≤ format)

/-- Embedding of the condition under which `readPointRecord`
(`LASProcessor.hpp` line 447) reads a near-infrared value: the
point-format number is 8 or 10. -/
def readsNIR (format : Nat) : Bool :=
  format == 8 || format == 10

/-- Header fields of `LASProcessor::LASHeader` that the point-count
selection reads (`LASProcessor.hpp` lines 52, 61, 71): version numbers,
the 32-bit legacy count and the 64-bit extended count (LAS 1.4+). -/
structure LASHeader where
  versionMajor : Nat
  versionMinor : Nat
  legacyNumberOfPointRecords : Nat
  numberOfPointRecords : Nat
deriving DecidableEq

/-- Embedding of `LASHeader::getTotalPointCount` (`LASProcessor.hpp`
lines 82-85): the extended 64-bit count for LAS 1.4+, the legacy 32-bit
count otherwise. -/
def LASHeader.getTotalPointCount (h : LASHeader) : Nat :=
  if h.versionMajor = 1 ∧ 4 ≤ h.versionMinor then h.numberOfPointRecords
  else h.legacyNumberOfPointRecords

/-- Decode loop of `LASProcessor::loadPointData` (`LASProcessor.hpp`
lines 382-410), with the per-record byte parsing abstracted into a list
of already-parsed records: the loop bound is
`header.getTotalPointCount()`; the loop fails when fewer records can be
read than the bound demands and otherwise returns exactly that many
records in order. -/
def loadPointData {α : Type} (h : LASHeader) (records : List α) : Option (List α) :=
  if records.length < h.getTotalPointCount then none
  else some (records.take h.getTotalPointCount)

/-- Truncation toward zero of a rational number, the semantics of the
C++ conversion `static_cast<int32_t>` applied to a double value (within
the 32-bit range).  `Int.tdiv` rounds toward zero. -/
def truncTowardZero (q : ℚ) : ℤ :=
  Int.tdiv q.num (q.den : ℤ)

/-- Coordinate quantization performed by `LASProcessor::writePointRecord`
(`LASProcessor.hpp` lines 506-510):
`static_cast<int32_t>((static_cast<double>(coordinate) - offsetValue) / scaleFactor)`.
The double-precision subtraction and division are modelled exactly over
`ℚ`; the narrowing `static_cast` truncates toward zero. -/
def writeQuantize (coordinate offsetValue scaleFactor : ℚ) : ℤ :=
  truncTowardZero ((coordinate - offsetValue) / scaleFactor)

/-- Quantization described by the specification's words:
`round((coordinate - offsetValue) / scaleFactor)`, the nearest integer.
Written from the spec; compared against `writeQuantize` in the theorems
below. -/
def writeQuantizeSpec (coordinate offsetValue scaleFactor : ℚ) : ℤ :=
  round ((coordinate - offsetValue) / scaleFactor)

end LASProcessor

/-! ## Definitions: PCD field-table codec (`src/PCDLoader.hpp`,
`src/PointCloudTypes.hpp`) -/

namespace PCDLoader

/-- Fields of `PCDLoader::PCDHeader` (`PCDLoader.hpp` lines 30-56) used
by the binary codec: the four parallel schema lists and the declared
point count. -/
structure PCDHeader where
  fields : List String
  sizes : List Nat
  counts : List Nat
  points : Nat
deriving DecidableEq

/-- Model of `PointXYZRGB` (`PointCloudTypes.hpp` lines 54-61): the
three `float` coordinates are carried as their 32-bit IEEE-754 bit
patterns, the three `uint8_t` color channels as naturals. -/
structure PointXYZRGB where
  x : Nat
  y : Nat
  z : Nat
  r : Nat
  g : Nat
  b : Nat
deriving DecidableEq

/-- Model of `PointCloud` (`PointCloudTypes.hpp` lines 66-92) as used by
the loaders: the point sequence and the `is_dense` flag (default
`true`); `width` and `height` are set by the caller from the header
before the decode loops run and are not touched by them. -/
structure PointCloud where
  points : List PointXYZRGB
  is_dense : Bool
deriving DecidableEq

/-- Little-endian byte serialization of a 32-bit value, as produced by
`file.write` / `memcpy` of a 4-byte `float` or `uint32_t` on the
little-endian targets the loader runs on. -/
def le4 (v : Nat) : List Nat :=
  [v % 256, v / 256 % 256, v / 65536 % 256, v / 16777216 % 256]

/-- Little-endian read of 4 bytes at offset `off`, the effect of
`std::memcpy(&value, &data[off], 4)`; reads past the end of `data`
yield 0 (the C++ code only reaches in-bounds offsets after its record
bound check). -/
def read4 (data : List Nat) (off : Nat) : Nat :=
  data.getD off 0 + 256 * data.getD (off + 1) 0 +
    65536 * data.getD (off + 2) 0 + 16777216 * data.getD (off + 3) 0

/-- Finiteness test `std::isfinite` on a float32 bit pattern: the value
is finite exactly when the 8 exponent bits are not all ones (NaN and
the infinities have exponent 255). -/
def isFinite32 (bits : Nat) : Bool :=
  (bits >>> 23) % 256 ≠ 255

/-- Embedding of `RGB::toPacked` (`PointCloudTypes.hpp` line 48):
`(r << 16) | (g << 8) | b` on `uint8_t` channels; the disjoint shifted
bytes make the bitwise-or a sum, and `% 256` records the `uint8_t`
domain of each channel. -/
def rgbToPacked (r g b : Nat) : Nat :=
  (r % 256) * 65536 + (g % 256) * 256 + b % 256

/-- Red channel of the packed-RGB constructor `RGB(uint32_t packed)`
(`PointCloudTypes.hpp` lines 41-45): `(packed >> 16) & 0xFF`. -/
def rgbUnpackR (packed : Nat) : Nat := packed / 65536 % 256

/-- Green channel of `RGB(uint32_t packed)`: `(packed >> 8) & 0xFF`. -/
def rgbUnpackG (packed : Nat) : Nat := packed / 256 % 256

/-- Blue channel of `RGB(uint32_t packed)`: `packed & 0xFF`. -/
def rgbUnpackB (packed : Nat) : Nat := packed % 256

/-- Embedding of `PCDHeader::getFieldIndex` (`PCDLoader.hpp` lines
52-55) and of the loaders' `findFieldIndex` lambda: index of the first
field with the given name; `none` models the `SIZE_MAX` / `nullopt`
not-found result. -/
def PCDHeader.getFieldIndex (h : PCDHeader) (name : String) : Option Nat :=
  h.fields.indexOf? name

/-- Record byte size as computed by `loadBinary` and `parseBinaryData`
(`PCDLoader.hpp` lines 383-390, 463-470): the fold of
`size * count` over the zipped `SIZE`/`COUNT` lists. -/
def PCDHeader.pointSize (h : PCDHeader) : Nat :=
  ((h.sizes.zip h.counts).map fun sc => sc.1 * sc.2).sum

/-- Byte offset of field `j` within a record, the running sum
`fieldOffset += sizes[j] * counts[j]` of `parseBinaryData`
(`PCDLoader.hpp` lines 483-492). -/
def PCDHeader.fieldOffset (h : PCDHeader) (j : Nat) : Nat :=
  ((List.range j).map fun k => h.sizes.getD k 0 * h.counts.getD k 0).sum

/-- Per-record extraction of `parseBinaryData` (`PCDLoader.hpp` lines
479-507): read the three coordinate floats at the offsets of the `x`,
`y`, `z` fields and, when an `rgb` field exists, the packed color at
its offset, unpacked through `RGB(uint32_t)`; without an `rgb` field
the color defaults to opaque white (255, 255, 255). -/
def parseRecord (h : PCDHeader) (xI yI zI : Nat) (rgbI : Option Nat) (data : List Nat)
    (offset : Nat) : PointXYZRGB :=
  match rgbI with
  | some k =>
    { x := read4 data (offset + h.fieldOffset xI)
      y := read4 data (offset + h.fieldOffset yI)
      z := read4 data (offset + h.fieldOffset zI)
      r := rgbUnpackR (read4 data (offset + h.fieldOffset k))
      g := rgbUnpackG (read4 data (offset + h.fieldOffset k))
      b := rgbUnpackB (read4 data (offset + h.fieldOffset k)) }
  | none =>
    { x := read4 data (offset + h.fieldOffset xI)
      y := read4 data (offset + h.fieldOffset yI)
      z := read4 data (offset + h.fieldOffset zI)
      r := 255
      g := 255
      b := 255 }

/-- Decode loop of `parseBinaryData` (`PCDLoader.hpp` lines 472-517).
Second-to-last argument: the loop index `i`; last-but-one: the number
of iterations left (the loop runs `header.points` times).  A record
reaching past the end of the data is the `return false` error path
(`none`).  A decoded record with a non-finite coordinate is not pushed
and clears `is_dense`; a finite record is appended. -/
def parseBinaryGo (h : PCDHeader) (xI yI zI : Nat) (rgbI : Option Nat) (data : List Nat) :
    Nat → Nat → PointCloud → Option PointCloud
  | _, 0, cloud => some cloud
  | i, n + 1, cloud =>
    if data.length < i * h.pointSize + h.pointSize then none
    else
      let p := parseRecord h xI yI zI rgbI data (i * h.pointSize)
      if isFinite32 p.x && isFinite32 p.y && isFinite32 p.z then
        parseBinaryGo h xI yI zI rgbI data (i + 1) n
          { cloud with points := cloud.points ++ [p] }
      else
        parseBinaryGo h xI yI zI rgbI data (i + 1) n { cloud with is_dense := false }

/-- Embedding of `PCDLoader::parseBinaryData` (`PCDLoader.hpp` lines
444-520): resolve the `x`, `y`, `z` (mandatory) and `rgb` (optional)
field indices, then run the decode loop `header.points` times over
`data`, extending `cloud`. -/
def parseBinaryData (h : PCDHeader) (data : List Nat) (cloud : PointCloud) :
    Option PointCloud :=
  match h.getFieldIndex "x", h.getFieldIndex "y", h.getFieldIndex "z" with
  | some xI, some yI, some zI =>
    parseBinaryGo h xI yI zI (h.getFieldIndex "rgb") data 0 h.points cloud
  | _, _, _ => none

/-- Per-record output of `PCDLoader::writeBinary` (`PCDLoader.hpp` lines
618-636): for each schema field in order, 4 bytes of the corresponding
coordinate float for `x`/`y`/`z`, 4 bytes of the packed color for
`rgb`, and `sizes[i]` zero bytes for any other field. -/
def writeRecord (h : PCDHeader) (xI yI zI : Nat) (rgbI : Option Nat) (p : PointXYZRGB) :
    List Nat :=
  (List.range h.fields.length).flatMap fun i =>
    if i = xI then le4 p.x
    else if i = yI then le4 p.y
    else if i = zI then le4 p.z
    else if rgbI = some i then le4 (rgbToPacked p.r p.g p.b)
    else List.replicate (h.sizes.getD i 0) 0

/-- Embedding of `PCDLoader::writeBinary` (`PCDLoader.hpp` lines
607-639): fail when the mandatory `x`, `y`, `z` fields are missing,
otherwise emit the records of all points in order. -/
def writeBinary (h : PCDHeader) (cloud : List PointXYZRGB) : Option (List Nat) :=
  match h.getFieldIndex "x", h.getFieldIndex "y", h.getFieldIndex "z" with
  | some xI, some yI, some zI =>
    some (cloud.flatMap (writeRecord h xI yI zI (h.getFieldIndex "rgb")))
  | _, _, _ => none

/-- Decode loop of `PCDLoader::loadASCII` (`PCDLoader.hpp` lines
404-442), with the `std::stof` / `std::stoul` string conversions
abstracted: each line is a list of already-converted numeric tokens
(float bit patterns at the coordinate indices, the packed integer at
the `rgb` index).  First argument: `header.fields.size()`.  The loop
runs while both iterations (`header.points`) and lines remain; a line
with fewer tokens than fields is skipped; a record with a non-finite
coordinate is not pushed and clears `is_dense`; the function always
succeeds. -/
def loadASCIIGo (nf : Nat) (xI yI zI : Nat) (rgbI : Option Nat) :
    Nat → List (List Nat) → PointCloud → PointCloud
  | 0, _, cloud => cloud
  | _ + 1, [], cloud => cloud
  | n + 1, vals :: rest, cloud =>
    if vals.length < nf then loadASCIIGo nf xI yI zI rgbI n rest cloud
    else
      let p : PointXYZRGB :=
        match rgbI with
        | some k =>
          if k < vals.length then
            { x := vals.getD xI 0, y := vals.getD yI 0, z := vals.getD zI 0
              r := rgbUnpackR (vals.getD k 0)
              g := rgbUnpackG (vals.getD k 0)
              b := rgbUnpackB (vals.getD k 0) }
          else
            { x := vals.getD xI 0, y := vals.getD yI 0, z := vals.getD zI 0
              r := 255, g := 255, b := 255 }
        | none =>
          { x := vals.getD xI 0, y := vals.getD yI 0, z := vals.getD zI 0
            r := 255, g := 255, b := 255 }
      if isFinite32 (vals.getD xI 0) && isFinite32 (vals.getD yI 0) &&
          isFinite32 (vals.getD zI 0) then
        loadASCIIGo nf xI yI zI rgbI n rest { cloud with points := cloud.points ++ [p] }
      else
        loadASCIIGo nf xI yI zI rgbI n rest { cloud with is_dense := false }

/-- Schema produced by `PCDLoader::createXYZRGBHeader` (`PCDLoader.hpp`
lines 202-215): fields `x`, `y`, `z`, `rgb`, each of size 4 and
count 1, with a given point count. -/
def xyzrgbHeader (n : Nat) : PCDHeader :=
  { fields := ["x", "y", "z", "rgb"], sizes := [4, 4, 4, 4], counts := [1, 1, 1, 1]
    points := n }

/-- Well-formedness of a modelled point: coordinate bit patterns fit in
32 bits and color channels in 8 bits, as their C++ types guarantee. -/
def validPoint (p : PointXYZRGB) : Prop :=
  p.x < 2 ^ 32 ∧ p.y < 2 ^ 32 ∧ p.z < 2 ^ 32 ∧ p.r < 256 ∧ p.g < 256 ∧ p.b < 256

/-- Finiteness of a modelled point: all three coordinate floats are
finite. -/
def finitePoint (p : PointXYZRGB) : Prop :=
  isFinite32 p.x = true ∧ isFinite32 p.y = true ∧ isFinite32 p.z = true

end PCDLoader

/-! ## Theorems: LZF codec -/

namespace LZFCodec

theorem decompress_generic_nil (out : List Nat) (cap : Nat) :
    decompress_generic [] out cap = some out := by
  rw [decompress_generic.eq_def]

theorem decompress_generic_cons (ctrl : Nat) (rest out : List Nat) (cap : Nat) :
    decompress_generic (ctrl :: rest) out cap =
      if cap ≤ out.length then some out
      else if ctrl < 32 then
        if cap - out.length < ctrl + 1 ∨ rest.length < ctrl + 1 then none
        else decompress_generic (rest.drop (ctrl + 1)) (out ++ rest.take (ctrl + 1)) cap
      else
        match rest with
        | [] => none
        | b1 :: rest1 =>
          if ctrl >>> 5 = 7 then
            match rest1 with
            | [] => none
            | b2 :: rest2 =>
              if out.length < ((ctrl &&& 0x1f) <<< 8) + b2 + 1 then none
              else if cap - out.length < ((ctrl >>> 5) + b1) + 2 then none
              else
                decompress_generic rest2
                  (copyBack out (((ctrl &&& 0x1f) <<< 8) + b2 + 1) (((ctrl >>> 5) + b1) + 2)) cap
          else
            if out.length < ((ctrl &&& 0x1f) <<< 8) + b1 + 1 then none
            else if cap - out.length < (ctrl >>> 5) + 2 then none
            else
              decompress_generic rest1
                (copyBack out (((ctrl &&& 0x1f) <<< 8) + b1 + 1) ((ctrl >>> 5) + 2)) cap := by
  rw [decompress_generic.eq_def]

theorem compress_generic_nil (acc : List Nat) (cap : Nat) :
    compress_generic [] acc cap = some acc := by
  rw [compress_generic.eq_def]

theorem compress_generic_cons (x : Nat) (xs acc : List Nat) (cap : Nat) :
    compress_generic (x :: xs) acc cap =
      if cap < acc.length + (((x :: xs).take 31).length + 1) then none
      else
        compress_generic ((x :: xs).drop 31)
          (acc ++ (((x :: xs).take 31).length - 1) :: (x :: xs).take 31) cap := by
  rw [compress_generic.eq_def]

theorem literalRunsEncoding_nil : literalRunsEncoding [] = [] := by
  rw [literalRunsEncoding.eq_def]

theorem literalRunsEncoding_cons (x : Nat) (xs : List Nat) :
    literalRunsEncoding (x :: xs) =
      (((x :: xs).take 31).length - 1) ::
        ((x :: xs).take 31 ++ literalRunsEncoding ((x :: xs).drop 31)) := by
  rw [literalRunsEncoding.eq_def]

theorem lzfDecodeSpec_nil (out : List Nat) (cap : Nat) :
    lzfDecodeSpec [] out cap = some out := by
  rw [lzfDecodeSpec.eq_def]

theorem lzfDecodeSpec_cons (control : Nat) (rest out : List Nat) (cap : Nat) :
    lzfDecodeSpec (control :: rest) out cap =
      if cap ≤ out.length then some out
      else if control < 32 then
        if cap - out.length < control + 1 ∨ rest.length < control + 1 then none
        else lzfDecodeSpec (rest.drop (control + 1)) (out ++ rest.take (control + 1)) cap
      else
        match rest with
        | [] => none
        | e :: rest1 =>
          if control / 32 = 7 then
            match rest1 with
            | [] => none
            | d :: rest2 =>
              if out.length < (control % 32) * 256 + d + 1 then none
              else if cap - out.length < (7 + e) + 2 then none
              else
                lzfDecodeSpec rest2
                  (specCopyForward out (out.length - ((control % 32) * 256 + d + 1)) ((7 + e) + 2))
                  cap
          else
            if out.length < (control % 32) * 256 + e + 1 then none
            else if cap - out.length < control / 32 + 2 then none
            else
              lzfDecodeSpec rest1
                (specCopyForward out (out.length - ((control % 32) * 256 + e + 1))
                  (control / 32 + 2))
                cap := by
  rw [lzfDecodeSpec.eq_def]

theorem literalRunsEncoding_length (inp : List Nat) :
    (literalRunsEncoding inp).length = inp.length + (inp.length + 30) / 31 := by
  match inp with
  | [] => simp [literalRunsEncoding_nil]
  | x :: xs =>
    have ih := literalRunsEncoding_length ((x :: xs).drop 31)
    rw [literalRunsEncoding_cons]
    simp only [List.length_cons, List.length_append, List.length_take, List.length_drop] at *
    omega
termination_by inp.length
decreasing_by
  all_goals (simp [List.length_drop] <;> omega)

theorem compress_generic_eq (inp : List Nat) :
    ∀ (acc : List Nat) (cap : Nat),
      acc.length + (literalRunsEncoding inp).length ≤ cap →
      compress_generic inp acc cap = some (acc ++ literalRunsEncoding inp) := by
  match inp with
  | [] => intro acc cap _; simp [compress_generic_nil, literalRunsEncoding_nil]
  | x :: xs =>
    intro acc cap hcap
    have ih := compress_generic_eq ((x :: xs).drop 31)
    rw [literalRunsEncoding_cons] at hcap ⊢
    rw [compress_generic_cons]
    rw [if_neg ?_]
    · rw [ih (acc ++ (((x :: xs).take 31).length - 1) :: (x :: xs).take 31) cap ?_]
      · simp
      · simp only [List.length_append, List.length_cons] at hcap ⊢
        omega
    · simp only [List.length_cons, List.length_append, List.length_take] at hcap ⊢
      omega
termination_by inp.length
decreasing_by
  all_goals (simp [List.length_drop] <;> omega)

theorem decompress_generic_literal_step (chunk rec out : List Nat) (cap : Nat)
    (h1 : 1 ≤ chunk.length) (h2 : chunk.length ≤ 31)
    (h3 : out.length + chunk.length ≤ cap) :
    decompress_generic ((chunk.length - 1) :: (chunk ++ rec)) out cap =
      decompress_generic rec (out ++ chunk) cap := by
  rw [decompress_generic_cons]
  rw [if_neg (by omega)]
  rw [if_pos (by omega)]
  rw [if_neg (by simp only [List.length_append]; omega)]
  have hrun : chunk.length - 1 + 1 = chunk.length := by omega
  rw [hrun, List.take_left, List.drop_left]

theorem decompress_generic_literals (inp : List Nat) :
    ∀ out : List Nat,
      decompress_generic (literalRunsEncoding inp) out (out.length + inp.length) =
        some (out ++ inp) := by
  match inp with
  | [] => intro out; simp [literalRunsEncoding_nil, decompress_generic_nil]
  | x :: xs =>
    intro out
    have ih := decompress_generic_literals ((x :: xs).drop 31) (out ++ (x :: xs).take 31)
    rw [literalRunsEncoding_cons]
    rw [decompress_generic_literal_step _ _ _ _ (by simp) (by simp)
      (by simp only [List.length_take]; omega)]
    have hlen : (out ++ (x :: xs).take 31).length + ((x :: xs).drop 31).length =
        out.length + (x :: xs).length := by
      simp only [List.length_append, List.length_take, List.length_drop]
      omega
    rw [hlen] at ih
    rw [ih]
    simp
termination_by inp.length
decreasing_by
  all_goals (simp [List.length_drop] <;> omega)

theorem compress_cons_eq (x : Nat) (xs : List Nat) :
    compress (x :: xs) = literalRunsEncoding (x :: xs) := by
  have hlen := literalRunsEncoding_length (x :: xs)
  have hne : (literalRunsEncoding (x :: xs)).length ≠ 0 := by
    rw [hlen]; simp
  unfold compress
  rw [compress_generic_eq (x :: xs) []
    ((x :: xs).length + (x :: xs).length / 8 + 16) (by rw [hlen]; simp; omega)]
  simp [hne]

theorem compress_nil_eq : compress [] = [] := by
  unfold compress
  rw [compress_generic_nil]
  simp

theorem decompress_generic_one (ctrl : Nat) (out : List Nat) (cap : Nat)
    (h1 : ¬ cap ≤ out.length) (h2 : ¬ ctrl < 32) :
    decompress_generic [ctrl] out cap = none := by
  rw [decompress_generic_cons, if_neg h1, if_neg h2]

theorem decompress_generic_ext_trunc (ctrl b1 : Nat) (out : List Nat) (cap : Nat)
    (h1 : ¬ cap ≤ out.length) (h2 : ¬ ctrl < 32) (h7 : ctrl >>> 5 = 7) :
    decompress_generic [ctrl, b1] out cap = none := by
  rw [decompress_generic_cons, if_neg h1, if_neg h2]
  show (if ctrl >>> 5 = 7 then _ else _) = _
  rw [if_pos h7]

theorem decompress_generic_ext_step (ctrl b1 b2 : Nat) (rest2 out : List Nat) (cap : Nat)
    (h1 : ¬ cap ≤ out.length) (h2 : ¬ ctrl < 32) (h7 : ctrl >>> 5 = 7) :
    decompress_generic (ctrl :: b1 :: b2 :: rest2) out cap =
      if out.length < ((ctrl &&& 0x1f) <<< 8) + b2 + 1 then none
      else if cap - out.length < ((ctrl >>> 5) + b1) + 2 then none
      else
        decompress_generic rest2
          (copyBack out (((ctrl &&& 0x1f) <<< 8) + b2 + 1) (((ctrl >>> 5) + b1) + 2)) cap := by
  rw [decompress_generic_cons, if_neg h1, if_neg h2]
  show (if ctrl >>> 5 = 7 then _ else _) = _
  rw [if_pos h7]

theorem decompress_generic_backref_step (ctrl b1 : Nat) (rest1 out : List Nat) (cap : Nat)
    (h1 : ¬ cap ≤ out.length) (h2 : ¬ ctrl < 32) (h7 : ¬ ctrl >>> 5 = 7) :
    decompress_generic (ctrl :: b1 :: rest1) out cap =
      if out.length < ((ctrl &&& 0x1f) <<< 8) + b1 + 1 then none
      else if cap - out.length < (ctrl >>> 5) + 2 then none
      else
        decompress_generic rest1
          (copyBack out (((ctrl &&& 0x1f) <<< 8) + b1 + 1) ((ctrl >>> 5) + 2)) cap := by
  rw [decompress_generic_cons, if_neg h1, if_neg h2]
  show (if ctrl >>> 5 = 7 then _ else _) = _
  rw [if_neg h7]

theorem lzfDecodeSpec_one (control : Nat) (out : List Nat) (cap : Nat)
    (h1 : ¬ cap ≤ out.length) (h2 : ¬ control < 32) :
    lzfDecodeSpec [control] out cap = none := by
  rw [lzfDecodeSpec_cons, if_neg h1, if_neg h2]

theorem lzfDecodeSpec_ext_trunc (control e : Nat) (out : List Nat) (cap : Nat)
    (h1 : ¬ cap ≤ out.length) (h2 : ¬ control < 32) (h7 : control / 32 = 7) :
    lzfDecodeSpec [control, e] out cap = none := by
  rw [lzfDecodeSpec_cons, if_neg h1, if_neg h2]
  show (if control / 32 = 7 then _ else _) = _
  rw [if_pos h7]

theorem lzfDecodeSpec_ext_step (control e d : Nat) (rest2 out : List Nat) (cap : Nat)
    (h1 : ¬ cap ≤ out.length) (h2 : ¬ control < 32) (h7 : control / 32 = 7) :
    lzfDecodeSpec (control :: e :: d :: rest2) out cap =
      if out.length < (control % 32) * 256 + d + 1 then none
      else if cap - out.length < (7 + e) + 2 then none
      else
        lzfDecodeSpec rest2
          (specCopyForward out (out.length - ((control % 32) * 256 + d + 1)) ((7 + e) + 2))
          cap := by
  rw [lzfDecodeSpec_cons, if_neg h1, if_neg h2]
  show (if control / 32 = 7 then _ else _) = _
  rw [if_pos h7]

theorem lzfDecodeSpec_backref_step (control e : Nat) (rest1 out : List Nat) (cap : Nat)
    (h1 : ¬ cap ≤ out.length) (h2 : ¬ control < 32) (h7 : ¬ control / 32 = 7) :
    lzfDecodeSpec (control :: e :: rest1) out cap =
      if out.length < (control % 32) * 256 + e + 1 then none
      else if cap - out.length < control / 32 + 2 then none
      else
        lzfDecodeSpec rest1
          (specCopyForward out (out.length - ((control % 32) * 256 + e + 1)) (control / 32 + 2))
          cap := by
  rw [lzfDecodeSpec_cons, if_neg h1, if_neg h2]
  show (if control / 32 = 7 then _ else _) = _
  rw [if_neg h7]

theorem shiftRight_five (c : Nat) : c >>> 5 = c / 32 := by
  simp [Nat.shiftRight_eq_div_pow]

theorem and_shiftLeft_eight (c : Nat) : (c &&& 0x1f) <<< 8 = (c % 32) * 256 := by
  rw [Nat.shiftLeft_eq, Nat.and_pow_two_sub_one_eq_mod c 5]

theorem copyBack_eq_specCopyForward (n : Nat) :
    ∀ (out : List Nat) (offset : Nat), 1 ≤ offset → offset ≤ out.length →
      copyBack out offset n = specCopyForward out (out.length - offset) n := by
  induction n with
  | zero => intro out offset _ _; rfl
  | succ n ih =>
    intro out offset ho1 ho2
    show copyBack (out ++ [out.getD (out.length - offset) 0]) offset n =
      specCopyForward (out ++ [out.getD (out.length - offset) 0]) (out.length - offset + 1) n
    rw [ih (out ++ [out.getD (out.length - offset) 0]) offset ho1
      (by simp only [List.length_append, List.length_cons, List.length_nil]; omega)]
    congr 1
    simp only [List.length_append, List.length_cons, List.length_nil]
    omega

theorem decompress_generic_eq_lzfDecodeSpec (inp : List Nat) :
    ∀ (out : List Nat) (cap : Nat),
      decompress_generic inp out cap = lzfDecodeSpec inp out cap := by
  match inp with
  | [] => intro out cap; rw [decompress_generic_nil, lzfDecodeSpec_nil]
  | ctrl :: rest =>
    intro out cap
    by_cases h1 : cap ≤ out.length
    · rw [decompress_generic_cons, lzfDecodeSpec_cons, if_pos h1, if_pos h1]
    by_cases h2 : ctrl < 32
    · rw [decompress_generic_cons, lzfDecodeSpec_cons, if_neg h1, if_neg h1,
        if_pos h2, if_pos h2]
      by_cases h3 : cap - out.length < ctrl + 1 ∨ rest.length < ctrl + 1
      · rw [if_pos h3, if_pos h3]
      · rw [if_neg h3, if_neg h3]
        exact decompress_generic_eq_lzfDecodeSpec (rest.drop (ctrl + 1)) _ _
    match rest with
    | [] =>
      rw [decompress_generic_one ctrl out cap h1 h2, lzfDecodeSpec_one ctrl out cap h1 h2]
    | b1 :: rest1 =>
      by_cases h7 : ctrl >>> 5 = 7
      · have h7s : ctrl / 32 = 7 := by rw [← shiftRight_five]; exact h7
        match rest1 with
        | [] =>
          rw [decompress_generic_ext_trunc ctrl b1 out cap h1 h2 h7,
            lzfDecodeSpec_ext_trunc ctrl b1 out cap h1 h2 h7s]
        | b2 :: rest2 =>
          rw [decompress_generic_ext_step ctrl b1 b2 rest2 out cap h1 h2 h7,
            lzfDecodeSpec_ext_step ctrl b1 b2 rest2 out cap h1 h2 h7s]
          rw [and_shiftLeft_eight, shiftRight_five, h7s]
          by_cases h4 : out.length < (ctrl % 32) * 256 + b2 + 1
          · rw [if_pos h4, if_pos h4]
          · rw [if_neg h4, if_neg h4]
            by_cases h5 : cap - out.length < 7 + b1 + 2
            · rw [if_pos h5, if_pos h5]
            · rw [if_neg h5, if_neg h5]
              rw [copyBack_eq_specCopyForward (7 + b1 + 2) out ((ctrl % 32) * 256 + b2 + 1)
                (by omega) (by omega)]
              exact decompress_generic_eq_lzfDecodeSpec rest2 _ _
      · have h7s : ¬ ctrl / 32 = 7 := by rw [← shiftRight_five]; exact h7
        rw [decompress_generic_backref_step ctrl b1 rest1 out cap h1 h2 h7,
          lzfDecodeSpec_backref_step ctrl b1 rest1 out cap h1 h2 h7s]
        rw [and_shiftLeft_eight, shiftRight_five]
        by_cases h4 : out.length < (ctrl % 32) * 256 + b1 + 1
        · rw [if_pos h4, if_pos h4]
        · rw [if_neg h4, if_neg h4]
          by_cases h5 : cap - out.length < ctrl / 32 + 2
          · rw [if_pos h5, if_pos h5]
          · rw [if_neg h5, if_neg h5]
            rw [copyBack_eq_specCopyForward (ctrl / 32 + 2) out ((ctrl % 32) * 256 + b1 + 1)
              (by omega) (by omega)]
            exact decompress_generic_eq_lzfDecodeSpec rest1 _ _
termination_by inp.length
decreasing_by
  all_goals (simp [List.length_drop] <;> omega)

theorem copyBack_one_replicate (n : Nat) :
    ∀ out : List Nat, copyBack out 1 n = out ++ List.replicate n (out.getD (out.length - 1) 0) := by
  induction n with
  | zero => intro out; simp [copyBack]
  | succ n ih =>
    intro out
    show copyBack (out ++ [out.getD (out.length - 1) 0]) 1 n = _
    rw [ih (out ++ [out.getD (out.length - 1) 0])]
    have hd : (out ++ [out.getD (out.length - 1) 0]).getD
        ((out ++ [out.getD (out.length - 1) 0]).length - 1) 0 = out.getD (out.length - 1) 0 := by
      have hlen : (out ++ [out.getD (out.length - 1) 0]).length - 1 = out.length := by
        simp
      rw [hlen, List.getD_eq_getElem?_getD, List.getElem?_append_right (le_refl _)]
      simp
    rw [hd]
    simp [List.replicate_succ]

/-- C2: for every byte sequence `b`, decompressing the output of
`LZFCodec::compress(b)` with expected output length `b.length` yields
exactly `b` — the vector-level round trip
`decompress(compress(b), len(b)) == b` holds. -/
theorem lzf_compression_roundtrip (b : List Nat) (hb : ∀ v ∈ b, v < 256) :
    decompress (compress b) b.length = b := by
  match b with
  | [] =>
    rw [compress_nil_eq]
    unfold decompress
    rw [show ([] : List Nat).length = 0 from rfl, decompress_generic_nil]
    simp
  | x :: xs =>
    rw [compress_cons_eq]
    unfold decompress
    have hd := decompress_generic_literals (x :: xs) []
    rw [show ([] : List Nat).length + (x :: xs).length = (x :: xs).length from by simp] at hd
    rw [hd]
    simp

/-- Witness for C2 at the spec's concrete scenario: the byte sequence
1, 2, 3, 4, 5 round-trips through compress and decompress. -/
theorem lzf_compression_roundtrip_witness :
    decompress (compress [1, 2, 3, 4, 5]) 5 = [1, 2, 3, 4, 5] :=
  lzf_compression_roundtrip [1, 2, 3, 4, 5] (by decide)

/-- C10: the vector-level `LZFCodec::compress` produces, for a
non-empty input of length `n`, exactly the literal-only encoding —
runs of at most 31 bytes each prefixed by a control byte equal to the
run length minus one — of total length `n + ceil(n/31)`; for the empty
input it returns the empty vector (the failure indicator) even though
nothing went wrong. -/
theorem lzf_compress_vector_literal_only (b : List Nat) :
    (b = [] → compress b = []) ∧
    (b ≠ [] → compress b = literalRunsEncoding b ∧
      (compress b).length = b.length + (b.length + 30) / 31) := by
  constructor
  · rintro rfl
    exact compress_nil_eq
  · intro hne
    match b, hne with
    | x :: xs, _ =>
      refine ⟨compress_cons_eq x xs, ?_⟩
      rw [compress_cons_eq x xs, literalRunsEncoding_length]

/-- Witness for C10: the empty input maps to the empty vector, and the
one-byte input `[7]` maps to its literal-run encoding of length 2. -/
theorem lzf_compress_vector_literal_only_witness :
    compress ([] : List Nat) = [] ∧
    compress [7] = literalRunsEncoding [7] ∧ (compress [7]).length = 2 :=
  ⟨(lzf_compress_vector_literal_only []).1 rfl,
   ((lzf_compress_vector_literal_only [7]).2 (by decide)).1,
   ((lzf_compress_vector_literal_only [7]).2 (by decide)).2⟩

/-- C7: the LZF decompressor interprets its input exactly as the
specification describes — it coincides on every input with the decoder
transcribed from the spec's words (literal runs of `control+1` bytes
for control bytes below 32; back-references with base length
`control >> 5`, extended by one byte when that base is 7, distance
`((control & 0x1F) << 8) + nextByte + 1` and copy length
`baseLength + 2`, copied byte-by-byte from
`currentOutputPosition - distance`) — and its byte-by-byte copy
replicates runs under overlap: a back-reference at distance 1
replicates the last output byte. -/
theorem lzf_decoder_control_semantics :
    (∀ (inp out : List Nat) (cap : Nat),
        decompress_generic inp out cap = lzfDecodeSpec inp out cap) ∧
    (∀ (out : List Nat) (n : Nat),
        copyBack out 1 n = out ++ List.replicate n (out.getD (out.length - 1) 0)) :=
  ⟨fun inp out cap => decompress_generic_eq_lzfDecodeSpec inp out cap,
   fun out n => copyBack_one_replicate n out⟩

/-- C8: LZF decompression signals malformed input by returning the
zero/empty result instead of throwing — the byte-level decoder returns
0 (modelled `none`) when the input ends in the middle of a control
sequence, when a back-reference distance exceeds the bytes already
produced (in both the plain and the extended-length back-reference
branch), and when a literal run or back-reference copy (plain or
extended) would overflow the output capacity; and the vector-level
`decompress` returns the empty vector whenever the decoded byte count
differs from `expectedSize`. -/
theorem lzf_decompress_error_handling :
    (∀ (ctrl : Nat) (out : List Nat) (cap : Nat),
        32 ≤ ctrl → out.length < cap →
        decompress_generic [ctrl] out cap = none) ∧
    (∀ (ctrl b1 : Nat) (out : List Nat) (cap : Nat),
        32 ≤ ctrl → ctrl >>> 5 = 7 → out.length < cap →
        decompress_generic [ctrl, b1] out cap = none) ∧
    (∀ (ctrl : Nat) (rest out : List Nat) (cap : Nat),
        ctrl < 32 → out.length < cap → rest.length < ctrl + 1 →
        decompress_generic (ctrl :: rest) out cap = none) ∧
    (∀ (ctrl : Nat) (rest out : List Nat) (cap : Nat),
        ctrl < 32 → out.length < cap → cap - out.length < ctrl + 1 →
        decompress_generic (ctrl :: rest) out cap = none) ∧
    (∀ (ctrl b1 : Nat) (rest1 out : List Nat) (cap : Nat),
        32 ≤ ctrl → ¬ ctrl >>> 5 = 7 → out.length < cap →
        out.length < ((ctrl &&& 0x1f) <<< 8) + b1 + 1 →
        decompress_generic (ctrl :: b1 :: rest1) out cap = none) ∧
    (∀ (ctrl b1 b2 : Nat) (rest2 out : List Nat) (cap : Nat),
        32 ≤ ctrl → ctrl >>> 5 = 7 → out.length < cap →
        out.length < ((ctrl &&& 0x1f) <<< 8) + b2 + 1 →
        decompress_generic (ctrl :: b1 :: b2 :: rest2) out cap = none) ∧
    (∀ (ctrl b1 : Nat) (rest1 out : List Nat) (cap : Nat),
        32 ≤ ctrl → ¬ ctrl >>> 5 = 7 → out.length < cap →
        ((ctrl &&& 0x1f) <<< 8) + b1 + 1 ≤ out.length →
        cap - out.length < (ctrl >>> 5) + 2 →
        decompress_generic (ctrl :: b1 :: rest1) out cap = none) ∧
    (∀ (ctrl b1 b2 : Nat) (rest2 out : List Nat) (cap : Nat),
        32 ≤ ctrl → ctrl >>> 5 = 7 → out.length < cap →
        ((ctrl &&& 0x1f) <<< 8) + b2 + 1 ≤ out.length →
        cap - out.length < ((ctrl >>> 5) + b1) + 2 →
        decompress_generic (ctrl :: b1 :: b2 :: rest2) out cap = none) ∧
    (∀ (c : List Nat) (n : Nat),
        decompress_generic c [] n = none → decompress c n = []) ∧
    (∀ (c : List Nat) (n : Nat) (written : List Nat),
        decompress_generic c [] n = some written → written.length ≠ n →
        decompress c n = []) := by
  refine ⟨?_, ?_, ?_, ?_, ?_, ?_, ?_, ?_, ?_, ?_⟩
  · intro ctrl out cap h32 hcap
    exact decompress_generic_one ctrl out cap (by omega) (by omega)
  · intro ctrl b1 out cap h32 h7 hcap
    exact decompress_generic_ext_trunc ctrl b1 out cap (by omega) (by omega) h7
  · intro ctrl rest out cap hlt hcap hdata
    rw [decompress_generic_cons, if_neg (by omega), if_pos hlt, if_pos (Or.inr hdata)]
  · intro ctrl rest out cap hlt hcap hspace
    rw [decompress_generic_cons, if_neg (by omega), if_pos hlt, if_pos (Or.inl hspace)]
  · intro ctrl b1 rest1 out cap h32 h7 hcap hdist
    rw [decompress_generic_backref_step ctrl b1 rest1 out cap (by omega) (by omega) h7,
      if_pos hdist]
  · intro ctrl b1 b2 rest2 out cap h32 h7 hcap hdist
    rw [decompress_generic_ext_step ctrl b1 b2 rest2 out cap (by omega) (by omega) h7,
      if_pos hdist]
  · intro ctrl b1 rest1 out cap h32 h7 hcap hdist hspace
    rw [decompress_generic_backref_step ctrl b1 rest1 out cap (by omega) (by omega) h7,
      if_neg (by omega), if_pos hspace]
  · intro ctrl b1 b2 rest2 out cap h32 h7 hcap hdist hspace
    rw [decompress_generic_ext_step ctrl b1 b2 rest2 out cap (by omega) (by omega) h7,
      if_neg (by omega), if_pos hspace]
  · intro c n hnone
    unfold decompress
    rw [hnone]
  · intro c n written hsome hne
    unfold decompress
    rw [hsome]
    simp [hne]

/-- Witness for C8: concrete malformed inputs — a lone back-reference
control byte, a truncated extended back-reference, a literal run with
missing data, a literal run overflowing a capacity of 1, a plain and
an extended back-reference each pointing before the start of the
output, a plain and an extended back-reference copy each overflowing
the capacity, and two vector-level size-mismatch failures. -/
theorem lzf_decompress_error_handling_witness :
    decompress_generic [32] [] 1 = none ∧
    decompress_generic [224, 0] [] 1 = none ∧
    decompress_generic [1] [] 5 = none ∧
    decompress_generic [1, 9, 9] [] 1 = none ∧
    decompress_generic [32, 0] [] 5 = none ∧
    decompress_generic [224, 0, 0] [] 5 = none ∧
    decompress_generic [32, 0] [55] 2 = none ∧
    decompress_generic [224, 0, 0] [55] 2 = none ∧
    decompress [32] 1 = [] ∧
    decompress [0, 9] 5 = [] := by
  have hsome : decompress_generic [0, 9] [] 5 = some [9] := by
    rw [decompress_generic_cons]
    rw [if_neg (by norm_num), if_pos (by norm_num), if_neg (by norm_num)]
    simp [decompress_generic_nil]
  refine ⟨?_, ?_, ?_, ?_, ?_, ?_, ?_, ?_, ?_, ?_⟩
  · exact lzf_decompress_error_handling.1 32 [] 1 (by norm_num) (by norm_num)
  · exact lzf_decompress_error_handling.2.1 224 0 [] 1 (by norm_num) (by decide) (by norm_num)
  · exact lzf_decompress_error_handling.2.2.1 1 [] [] 5 (by norm_num) (by norm_num) (by decide)
  · exact lzf_decompress_error_handling.2.2.2.1 1 [9, 9] [] 1 (by norm_num) (by norm_num)
      (by decide)
  · exact lzf_decompress_error_handling.2.2.2.2.1 32 0 [] [] 5 (by norm_num) (by decide)
      (by norm_num) (by decide)
  · exact lzf_decompress_error_handling.2.2.2.2.2.1 224 0 0 [] [] 5 (by norm_num) (by decide)
      (by norm_num) (by decide)
  · exact lzf_decompress_error_handling.2.2.2.2.2.2.1 32 0 [] [55] 2 (by norm_num) (by decide)
      (by decide) (by decide) (by decide)
  · exact lzf_decompress_error_handling.2.2.2.2.2.2.2.1 224 0 0 [] [55] 2 (by norm_num)
      (by decide) (by decide) (by decide) (by decide)
  · exact lzf_decompress_error_handling.2.2.2.2.2.2.2.2.1 [32] 1
      (lzf_decompress_error_handling.1 32 [] 1 (by norm_num) (by norm_num))
  · exact lzf_decompress_error_handling.2.2.2.2.2.2.2.2.2 [0, 9] 5 [9] hsome (by decide)

end LZFCodec

/-! ## Theorems: LAS fixed-format codec -/

namespace LASProcessor

/-- C1: evaluation of the format tables of `LASProcessor` over all
point-format numbers 0-10.  The record lengths match the spec's
presence table `[20, 28, 26, 34, 57, 63, 30, 36, 38, 59, 67]`, GPS time
is present exactly for formats 1, 3, 4, 5, 6, 7, 8, 9, 10 and
near-infrared is read exactly for formats 8 and 10, all as the claim
states; but `hasRGB` holds exactly for formats 2, 3, 7, 8, 10 — format
5 is missing from the source's `hasRGB`, contradicting the claim's set
{2, 3, 5, 7, 8, 10}, the record length 63 (= format 3's 34 bytes, which
include color, plus the 29-byte wave packet), and the source's own
enum comment "FORMAT_5 = Format 3 + wave packets". -/
theorem las_format_table (f : Nat) (hf : f ≤ 10) :
    getPointRecordLength f = [20, 28, 26, 34, 57, 63, 30, 36, 38, 59, 67].getD f 0 ∧
    (hasGPSTime f = true ↔ f ∈ [1, 3, 4, 5, 6, 7, 8, 9, 10]) ∧
    (readsNIR f = true ↔ f = 8 ∨ f = 10) ∧
    (hasRGB f = true ↔ f ∈ [2, 3, 7, 8, 10]) := by
  revert hf
  revert f
  decide

/-- Witness for C1 at the failing format number 5: the record length is
63 and GPS time is present, yet `hasRGB 5` is false (5 is not in the
list the source tests). -/
theorem las_format_table_witness :
    getPointRecordLength 5 = [20, 28, 26, 34, 57, 63, 30, 36, 38, 59, 67].getD 5 0 ∧
    (hasGPSTime 5 = true ↔ 5 ∈ [1, 3, 4, 5, 6, 7, 8, 9, 10]) ∧
    (readsNIR 5 = true ↔ 5 = 8 ∨ 5 = 10) ∧
    (hasRGB 5 = true ↔ 5 ∈ [2, 3, 7, 8, 10]) :=
  las_format_table 5 (by decide)

/-- C5: the effective total point count is the 64-bit extended count
exactly when `versionMajor == 1 && versionMinor >= 4`, and the 32-bit
legacy count otherwise, and the decode loop of `loadPointData` reads
exactly that many records. -/
theorem las_point_count_selection :
    (∀ h : LASHeader, h.versionMajor = 1 → 4 ≤ h.versionMinor →
        h.getTotalPointCount = h.numberOfPointRecords) ∧
    (∀ h : LASHeader, ¬ (h.versionMajor = 1 ∧ 4 ≤ h.versionMinor) →
        h.getTotalPointCount = h.legacyNumberOfPointRecords) ∧
    (∀ (h : LASHeader) (records loaded : List Nat),
        loadPointData h records = some loaded →
        loaded.length = h.getTotalPointCount) := by
  refine ⟨?_, ?_, ?_⟩
  · intro h h1 h4
    simp [LASHeader.getTotalPointCount, h1, h4]
  · intro h hno
    simp [LASHeader.getTotalPointCount, hno]
  · intro h records loaded hl
    by_cases hlt : records.length < h.getTotalPointCount
    · simp [loadPointData, hlt] at hl
    · simp only [loadPointData, hlt, if_false, Option.some.injEq] at hl
      rw [← hl]
      simp only [List.length_take]
      omega

/-- Witness for C5: a 1.4 header with differing counts uses the
extended count 9, a 1.2 header uses the legacy count 2, and on a 1.4
header demanding 2 records the decode loop returns a list of length
equal to the effective count. -/
theorem las_point_count_selection_witness :
    (⟨1, 4, 2, 9⟩ : LASHeader).getTotalPointCount =
      (⟨1, 4, 2, 9⟩ : LASHeader).numberOfPointRecords ∧
    (⟨1, 2, 2, 9⟩ : LASHeader).getTotalPointCount =
      (⟨1, 2, 2, 9⟩ : LASHeader).legacyNumberOfPointRecords ∧
    ([10, 20] : List Nat).length = (⟨1, 4, 5, 2⟩ : LASHeader).getTotalPointCount :=
  ⟨las_point_count_selection.1 ⟨1, 4, 2, 9⟩ rfl (by norm_num),
   las_point_count_selection.2.1 ⟨1, 2, 2, 9⟩ (by simp),
   las_point_count_selection.2.2 ⟨1, 4, 5, 2⟩ [10, 20, 30] [10, 20] (by decide)⟩

/-- C3 counterexample: the claim says the stored integer coordinate is
`round((coordinate - offset) / scale)`, the nearest integer.  At
coordinate 3/2 (`1.5f`, exactly representable; the double arithmetic
with offset 0 and scale 1 is exact), the source's
`static_cast<int32_t>` truncation stores 1 while the nearest integer
is 2. -/
theorem las_quantize_not_round :
    writeQuantize (3 / 2) 0 1 = 1 ∧ writeQuantizeSpec (3 / 2) 0 1 = 2 := by
  constructor
  · show truncTowardZero ((3 / 2 - 0) / 1) = 1
    norm_num [truncTowardZero]
    decide
  · show round ((3 / 2 - 0) / 1 : ℚ) = 2
    norm_num [round_eq]

/-- C3 amended: the container-B encoder stores, for nonzero scale, the
truncation toward zero of `(coordinate - offset) / scale` computed in
double precision — the floor for nonnegative quotients and the ceiling
for negative ones — not the nearest integer. -/
theorem las_quantize_truncates (coordinate offsetValue scaleFactor : ℚ)
    (_hs : scaleFactor ≠ 0) :
    writeQuantize coordinate offsetValue scaleFactor =
      if 0 ≤ (coordinate - offsetValue) / scaleFactor
      then ⌊(coordinate - offsetValue) / scaleFactor⌋
      else ⌈(coordinate - offsetValue) / scaleFactor⌉ := by
  unfold writeQuantize truncTowardZero
  generalize (coordinate - offsetValue) / scaleFactor = q
  by_cases h : 0 ≤ q
  · rw [if_pos h, Rat.floor_def]
    exact Int.tdiv_eq_ediv (Rat.num_nonneg.mpr h) (by positivity)
  · rw [if_neg h]
    have hq : q < 0 := lt_of_not_ge h
    have hnum : q.num < 0 := Rat.num_neg.mpr hq
    have h1 : ⌈q⌉ = -⌊-q⌋ := by rw [← Int.ceil_neg, neg_neg]
    rw [h1, Rat.floor_def, Rat.neg_num, Rat.neg_den]
    have h2 : Int.tdiv q.num ((q.den : ℤ)) = -Int.tdiv (-q.num) ((q.den : ℤ)) := by
      rw [Int.neg_tdiv, neg_neg]
    rw [h2, Int.tdiv_eq_ediv (by omega) (by positivity)]

/-- Witness for C3's amended statement at coordinate 3, offset 1,
scale 2: the stored integer is the floor of the nonnegative quotient
(3 - 1) / 2 = 1. -/
theorem las_quantize_truncates_witness :
    writeQuantize 3 1 2 =
      if 0 ≤ ((3 : ℚ) - 1) / 2 then ⌊((3 : ℚ) - 1) / 2⌋ else ⌈((3 : ℚ) - 1) / 2⌉ :=
  las_quantize_truncates 3 1 2 (by norm_num)

end LASProcessor

/-! ## Theorems: PCD field-table codec -/

namespace PCDLoader

theorem getD_append_right (l1 l2 : List Nat) (k : Nat) :
    (l1 ++ l2).getD (l1.length + k) 0 = l2.getD k 0 := by
  simp [List.getD_eq_getElem?_getD, List.getElem?_append_right]

theorem read4_append (l1 l2 : List Nat) (k : Nat) :
    read4 (l1 ++ l2) (l1.length + k) = read4 l2 k := by
  unfold read4
  rw [show l1.length + k + 1 = l1.length + (k + 1) from by omega]
  rw [show l1.length + k + 2 = l1.length + (k + 2) from by omega]
  rw [show l1.length + k + 3 = l1.length + (k + 3) from by omega]
  rw [getD_append_right, getD_append_right, getD_append_right, getD_append_right]

theorem le4_length (v : Nat) : (le4 v).length = 4 := rfl

theorem read4_le4 (v : Nat) (l : List Nat) (hv : v < 2 ^ 32) :
    read4 (le4 v ++ l) 0 = v := by
  simp only [read4, le4, List.cons_append, List.nil_append,
    List.getD_cons_zero, List.getD_cons_succ]
  omega

theorem read4_off4 (a : Nat) (l : List Nat) :
    read4 (le4 a ++ l) 4 = read4 l 0 := by
  simpa using read4_append (le4 a) l 0

theorem read4_off8 (a b : Nat) (l : List Nat) :
    read4 (le4 a ++ (le4 b ++ l)) 8 = read4 l 0 := by
  have h1 := read4_append (le4 a) (le4 b ++ l) 4
  simp only [le4_length] at h1
  rw [show (8 : Nat) = 4 + 4 from rfl, h1, read4_off4]

theorem read4_off12 (a b c : Nat) (l : List Nat) :
    read4 (le4 a ++ (le4 b ++ (le4 c ++ l))) 12 = read4 l 0 := by
  have h1 := read4_append (le4 a) (le4 b ++ (le4 c ++ l)) 8
  simp only [le4_length] at h1
  rw [show (12 : Nat) = 4 + 8 from rfl, h1, read4_off8]

theorem rgbToPacked_lt (r g b : Nat) : rgbToPacked r g b < 2 ^ 32 := by
  unfold rgbToPacked
  omega

theorem rgbUnpack_packed (r g b : Nat) (hr : r < 256) (hg : g < 256) (hb : b < 256) :
    rgbUnpackR (rgbToPacked r g b) = r ∧ rgbUnpackG (rgbToPacked r g b) = g ∧
      rgbUnpackB (rgbToPacked r g b) = b := by
  unfold rgbToPacked rgbUnpackR rgbUnpackG rgbUnpackB
  omega

theorem pointSize_xyzrgb (n : Nat) : (xyzrgbHeader n).pointSize = 16 := rfl

theorem writeRecord_xyzrgb_append (n : Nat) (p : PointXYZRGB) (rest : List Nat) :
    writeRecord (xyzrgbHeader n) 0 1 2 (some 3) p ++ rest =
      le4 p.x ++ (le4 p.y ++ (le4 p.z ++ (le4 (rgbToPacked p.r p.g p.b) ++ rest))) := by
  show (le4 p.x ++ (le4 p.y ++ (le4 p.z ++ (le4 (rgbToPacked p.r p.g p.b) ++ [])))) ++ rest = _
  simp

theorem writeRecord_xyzrgb_length (n : Nat) (p : PointXYZRGB) :
    (writeRecord (xyzrgbHeader n) 0 1 2 (some 3) p).length = 16 := rfl

theorem parseRecord_xyzrgb (n i : Nat) (pre rest : List Nat) (p : PointXYZRGB)
    (hpre : pre.length = 16 * i) (hv : validPoint p) :
    parseRecord (xyzrgbHeader n) 0 1 2 (some 3)
        (pre ++ (writeRecord (xyzrgbHeader n) 0 1 2 (some 3) p ++ rest))
        (i * (xyzrgbHeader n).pointSize) = p := by
  obtain ⟨hx, hy, hz, hr, hg, hb⟩ := hv
  obtain ⟨hur, hug, hub⟩ := rgbUnpack_packed p.r p.g p.b hr hg hb
  rw [writeRecord_xyzrgb_append]
  rw [pointSize_xyzrgb]
  have e0 : i * 16 + (xyzrgbHeader n).fieldOffset 0 = pre.length + 0 := by
    show i * 16 + 0 = pre.length + 0
    omega
  have e1 : i * 16 + (xyzrgbHeader n).fieldOffset 1 = pre.length + 4 := by
    show i * 16 + 4 = pre.length + 4
    omega
  have e2 : i * 16 + (xyzrgbHeader n).fieldOffset 2 = pre.length + 8 := by
    show i * 16 + 8 = pre.length + 8
    omega
  have e3 : i * 16 + (xyzrgbHeader n).fieldOffset 3 = pre.length + 12 := by
    show i * 16 + 12 = pre.length + 12
    omega
  show PointXYZRGB.mk _ _ _ _ _ _ = p
  rw [e0, e1, e2, e3, read4_append, read4_append, read4_append, read4_append]
  rw [read4_le4 p.x _ hx, read4_off4, read4_off8, read4_off12]
  rw [read4_le4 p.y _ hy, read4_le4 p.z _ hz,
    read4_le4 (rgbToPacked p.r p.g p.b) _ (rgbToPacked_lt p.r p.g p.b)]
  rw [hur, hug, hub]

theorem flatRecords_length (n : Nat) (ps : List PointXYZRGB) :
    (ps.flatMap (writeRecord (xyzrgbHeader n) 0 1 2 (some 3))).length = 16 * ps.length := by
  induction ps with
  | nil => simp
  | cons p ps ih =>
    rw [List.flatMap_cons]
    simp only [List.length_append, writeRecord_xyzrgb_length, ih, List.length_cons]
    omega

theorem parseBinaryGo_xyzrgb (ps : List PointXYZRGB) :
    ∀ (n i : Nat) (pre : List Nat) (cloud : PointCloud),
      (∀ p ∈ ps, validPoint p) → (∀ p ∈ ps, finitePoint p) →
      pre.length = 16 * i →
      parseBinaryGo (xyzrgbHeader n) 0 1 2 (some 3)
          (pre ++ ps.flatMap (writeRecord (xyzrgbHeader n) 0 1 2 (some 3)))
          i ps.length cloud =
        some ⟨cloud.points ++ ps, cloud.is_dense⟩ := by
  induction ps with
  | nil =>
    intro n i pre cloud _ _ _
    simp [parseBinaryGo]
  | cons p ps ih =>
    intro n i pre cloud hv hf hpre
    have hvp : validPoint p := hv p (by simp)
    have hfp : finitePoint p := hf p (by simp)
    rw [List.flatMap_cons, List.length_cons]
    rw [show parseBinaryGo (xyzrgbHeader n) 0 1 2 (some 3)
        (pre ++ (writeRecord (xyzrgbHeader n) 0 1 2 (some 3) p ++
          ps.flatMap (writeRecord (xyzrgbHeader n) 0 1 2 (some 3))))
        i (ps.length + 1) cloud =
      if (pre ++ (writeRecord (xyzrgbHeader n) 0 1 2 (some 3) p ++
          ps.flatMap (writeRecord (xyzrgbHeader n) 0 1 2 (some 3)))).length <
          i * (xyzrgbHeader n).pointSize + (xyzrgbHeader n).pointSize then none
      else
        if isFinite32 (parseRecord (xyzrgbHeader n) 0 1 2 (some 3)
              (pre ++ (writeRecord (xyzrgbHeader n) 0 1 2 (some 3) p ++
                ps.flatMap (writeRecord (xyzrgbHeader n) 0 1 2 (some 3))))
              (i * (xyzrgbHeader n).pointSize)).x &&
            isFinite32 (parseRecord (xyzrgbHeader n) 0 1 2 (some 3)
              (pre ++ (writeRecord (xyzrgbHeader n) 0 1 2 (some 3) p ++
                ps.flatMap (writeRecord (xyzrgbHeader n) 0 1 2 (some 3))))
              (i * (xyzrgbHeader n).pointSize)).y &&
            isFinite32 (parseRecord (xyzrgbHeader n) 0 1 2 (some 3)
              (pre ++ (writeRecord (xyzrgbHeader n) 0 1 2 (some 3) p ++
                ps.flatMap (writeRecord (xyzrgbHeader n) 0 1 2 (some 3))))
              (i * (xyzrgbHeader n).pointSize)).z then
          parseBinaryGo (xyzrgbHeader n) 0 1 2 (some 3)
            (pre ++ (writeRecord (xyzrgbHeader n) 0 1 2 (some 3) p ++
              ps.flatMap (writeRecord (xyzrgbHeader n) 0 1 2 (some 3))))
            (i + 1) ps.length
            { cloud with points := cloud.points ++
                [parseRecord (xyzrgbHeader n) 0 1 2 (some 3)
                  (pre ++ (writeRecord (xyzrgbHeader n) 0 1 2 (some 3) p ++
                    ps.flatMap (writeRecord (xyzrgbHeader n) 0 1 2 (some 3))))
                  (i * (xyzrgbHeader n).pointSize)] }
        else
          parseBinaryGo (xyzrgbHeader n) 0 1 2 (some 3)
            (pre ++ (writeRecord (xyzrgbHeader n) 0 1 2 (some 3) p ++
              ps.flatMap (writeRecord (xyzrgbHeader n) 0 1 2 (some 3))))
            (i + 1) ps.length { cloud with is_dense := false }
      from rfl]
    rw [parseRecord_xyzrgb n i pre _ p hpre hvp]
    rw [if_neg ?_]
    · rw [if_pos (by simp [hfp.1, hfp.2.1, hfp.2.2])]
      rw [show pre ++ (writeRecord (xyzrgbHeader n) 0 1 2 (some 3) p ++
          ps.flatMap (writeRecord (xyzrgbHeader n) 0 1 2 (some 3))) =
        (pre ++ writeRecord (xyzrgbHeader n) 0 1 2 (some 3) p) ++
          ps.flatMap (writeRecord (xyzrgbHeader n) 0 1 2 (some 3)) from by simp]
      rw [ih n (i + 1) (pre ++ writeRecord (xyzrgbHeader n) 0 1 2 (some 3) p)
        { cloud with points := cloud.points ++ [p] }
        (fun q hq => hv q (by simp [hq])) (fun q hq => hf q (by simp [hq]))
        (by simp only [List.length_append, writeRecord_xyzrgb_length]; omega)]
      simp
    · simp only [List.length_append, writeRecord_xyzrgb_length, flatRecords_length,
        pointSize_xyzrgb]
      omega

theorem writeBinary_xyzrgb (n : Nat) (cloud : List PointXYZRGB) :
    writeBinary (xyzrgbHeader n) cloud =
      some (cloud.flatMap (writeRecord (xyzrgbHeader n) 0 1 2 (some 3))) := rfl

theorem parseBinaryData_xyzrgb (n : Nat) (data : List Nat) (cloud : PointCloud) :
    parseBinaryData (xyzrgbHeader n) data cloud =
      parseBinaryGo (xyzrgbHeader n) 0 1 2 (some 3) data 0 n cloud := rfl

/-- C4: container-A binary round trip under the schema with fields
`x`, `y`, `z`, `rgb`, each of size 4 and count 1 — encoding a
collection of finite points with `writeBinary` and decoding the bytes
with `parseBinaryData` returns exactly the original collection, every
coordinate bit-exact and every packed color equal, with `is_dense`
remaining true. -/
theorem pcd_binary_roundtrip (P : List PointXYZRGB)
    (hv : ∀ p ∈ P, validPoint p) (hf : ∀ p ∈ P, finitePoint p) :
    (writeBinary (xyzrgbHeader P.length) P).bind
        (fun data => parseBinaryData (xyzrgbHeader P.length) data ⟨[], true⟩) =
      some ⟨P, true⟩ := by
  rw [writeBinary_xyzrgb, Option.some_bind, parseBinaryData_xyzrgb]
  have h := parseBinaryGo_xyzrgb P P.length 0 [] ⟨[], true⟩ hv hf (by simp)
  simpa using h

/-- Witness for C4: the single point with coordinates 1.0f, 2.0f, 3.0f
(bit patterns 0x3F800000, 0x40000000, 0x40400000) and color
(255, 128, 64) survives the binary round trip bit-exactly. -/
theorem pcd_binary_roundtrip_witness :
    (writeBinary (xyzrgbHeader 1) [⟨0x3F800000, 0x40000000, 0x40400000, 255, 128, 64⟩]).bind
        (fun data => parseBinaryData (xyzrgbHeader 1) data ⟨[], true⟩) =
      some ⟨[⟨0x3F800000, 0x40000000, 0x40400000, 255, 128, 64⟩], true⟩ :=
  pcd_binary_roundtrip [⟨0x3F800000, 0x40000000, 0x40400000, 255, 128, 64⟩]
    (by intro p hp; simp at hp; subst hp; exact ⟨by norm_num, by norm_num, by norm_num,
      by norm_num, by norm_num, by norm_num⟩)
    (by intro p hp; simp at hp; subst hp; exact ⟨by decide, by decide, by decide⟩)

theorem zip_mul_sum (l1 : List Nat) : ∀ l2 : List Nat, l1.length = l2.length →
    ((l1.zip l2).map fun sc => sc.1 * sc.2).sum =
      ((List.range l1.length).map fun k => l1.getD k 0 * l2.getD k 0).sum := by
  induction l1 with
  | nil => intro l2 _; simp
  | cons a l1 ih =>
    intro l2 hl
    cases l2 with
    | nil => simp at hl
    | cons b l2 =>
      simp only [List.zip_cons_cons, List.map_cons, List.sum_cons, List.length_cons]
      rw [ih l2 (by simpa using hl)]
      rw [List.range_succ_eq_map]
      simp [List.map_map, Function.comp_def]

/-- C9 counterexample: under the valid schema with fields `x`, `y`,
`z`, `rgb`, `extra` of sizes 4, 4, 4, 4, 2 and counts 1, 1, 1, 1, 3,
`writeBinary` emits 18 bytes for one point — it writes the unknown
`extra` field as `sizes[i]` zero bytes, ignoring its count — while the
schema's record byte size `Σ byteWidth[i] * count[i]` is 22, so the
emitted record does not match the claimed total. -/
theorem pcd_record_size_cex :
    (writeBinary ⟨["x", "y", "z", "rgb", "extra"], [4, 4, 4, 4, 2], [1, 1, 1, 1, 3], 1⟩
          [⟨0, 0, 0, 0, 0, 0⟩]).map List.length ≠
      some (PCDHeader.pointSize
        ⟨["x", "y", "z", "rgb", "extra"], [4, 4, 4, 4, 2], [1, 1, 1, 1, 3], 1⟩) ∧
    (writeBinary ⟨["x", "y", "z", "rgb", "extra"], [4, 4, 4, 4, 2], [1, 1, 1, 1, 3], 1⟩
          [⟨0, 0, 0, 0, 0, 0⟩]).map List.length = some 18 ∧
    PCDHeader.pointSize
        ⟨["x", "y", "z", "rgb", "extra"], [4, 4, 4, 4, 2], [1, 1, 1, 1, 3], 1⟩ = 22 := by
  refine ⟨?_, ?_, ?_⟩ <;> decide

/-- C9 amended: `writeBinary` writes fields whose names are not `x`,
`y`, `z` or `rgb` as zero-filled bytes of their declared size
(byte width), ignoring their repeat count, and writes the `x`, `y`,
`z`, `rgb` fields as 4 bytes each regardless of their declared size; so
a record's byte count is the sum of those per-field widths, and it
equals the schema's `Σ byteWidth[i] * count[i]` when every count is 1
and the `x`, `y`, `z`, `rgb` fields have declared size 4. -/
theorem pcd_record_size_amended :
    (∀ (h : PCDHeader) (xI yI zI : Nat) (rgbI : Option Nat) (p : PointXYZRGB),
        (writeRecord h xI yI zI rgbI p).length =
          ((List.range h.fields.length).map fun i =>
            if i = xI ∨ i = yI ∨ i = zI ∨ rgbI = some i then 4
            else h.sizes.getD i 0).sum) ∧
    (∀ (h : PCDHeader) (xI yI zI : Nat) (rgbI : Option Nat) (p : PointXYZRGB),
        h.sizes.length = h.fields.length →
        h.counts.length = h.fields.length →
        (∀ i, i < h.fields.length → h.counts.getD i 0 = 1) →
        (∀ i, i < h.fields.length →
          (i = xI ∨ i = yI ∨ i = zI ∨ rgbI = some i) → h.sizes.getD i 0 = 4) →
        (writeRecord h xI yI zI rgbI p).length = h.pointSize) := by
  have hlen : ∀ (h : PCDHeader) (xI yI zI : Nat) (rgbI : Option Nat) (p : PointXYZRGB),
      (writeRecord h xI yI zI rgbI p).length =
        ((List.range h.fields.length).map fun i =>
          if i = xI ∨ i = yI ∨ i = zI ∨ rgbI = some i then 4
          else h.sizes.getD i 0).sum := by
    intro h xI yI zI rgbI p
    unfold writeRecord
    rw [List.length_flatMap]
    congr 1
    apply List.map_congr_left
    intro i _
    simp only [Function.comp_apply]
    by_cases hsp : i = xI ∨ i = yI ∨ i = zI ∨ rgbI = some i
    · rw [if_pos hsp]
      split
      · simp [le4]
      · split
        · simp [le4]
        · split
          · simp [le4]
          · split
            · simp [le4]
            · rename_i h1 h2 h3 h4
              rcases hsp with h | h | h | h
              · exact absurd h h1
              · exact absurd h h2
              · exact absurd h h3
              · exact absurd h h4
    · push_neg at hsp
      obtain ⟨n1, n2, n3, n4⟩ := hsp
      simp [n1, n2, n3, n4]
  refine ⟨hlen, ?_⟩
  intro h xI yI zI rgbI p hsz hct hc1 h4
  rw [hlen h xI yI zI rgbI p]
  rw [PCDHeader.pointSize, zip_mul_sum h.sizes h.counts (by rw [hsz, hct]), hsz]
  congr 1
  apply List.map_congr_left
  intro i hi
  have hi' : i < h.fields.length := List.mem_range.mp hi
  by_cases hsp : i = xI ∨ i = yI ∨ i = zI ∨ rgbI = some i
  · rw [if_pos hsp, h4 i hi' hsp, hc1 i hi']
  · rw [if_neg hsp, hc1 i hi']
    omega

/-- Witness for C9's amended statement at the `x`, `y`, `z`, `rgb`
schema with all sizes 4 and counts 1: one record is 16 bytes, both as
the per-field width sum and as the schema's record byte size. -/
theorem pcd_record_size_amended_witness :
    (writeRecord (xyzrgbHeader 1) 0 1 2 (some 3) ⟨0, 0, 0, 0, 0, 0⟩).length =
      ((List.range (xyzrgbHeader 1).fields.length).map fun i =>
        if i = 0 ∨ i = 1 ∨ i = 2 ∨ (some 3 : Option Nat) = some i then 4
        else (xyzrgbHeader 1).sizes.getD i 0).sum ∧
    (writeRecord (xyzrgbHeader 1) 0 1 2 (some 3) ⟨0, 0, 0, 0, 0, 0⟩).length =
      (xyzrgbHeader 1).pointSize :=
  ⟨pcd_record_size_amended.1 (xyzrgbHeader 1) 0 1 2 (some 3) ⟨0, 0, 0, 0, 0, 0⟩,
   pcd_record_size_amended.2 (xyzrgbHeader 1) 0 1 2 (some 3) ⟨0, 0, 0, 0, 0, 0⟩
     (by decide) (by decide) (by decide) (by decide)⟩

theorem parseBinaryGo_mono (n : Nat) :
    ∀ (h : PCDHeader) (xI yI zI : Nat) (rgbI : Option Nat) (data : List Nat)
      (i : Nat) (cloud cloud' : PointCloud),
      parseBinaryGo h xI yI zI rgbI data i n cloud = some cloud' →
      cloud'.is_dense = true → cloud.is_dense = true := by
  induction n with
  | zero =>
    intro h xI yI zI rgbI data i cloud cloud' hp hd
    simp only [parseBinaryGo, Option.some.injEq] at hp
    rw [← hp] at hd
    exact hd
  | succ n ih =>
    intro h xI yI zI rgbI data i cloud cloud' hp hd
    simp only [parseBinaryGo] at hp
    split at hp
    · exact absurd hp (by simp)
    · split at hp
      · have := ih h xI yI zI rgbI data (i + 1) _ cloud' hp hd
        exact this
      · have := ih h xI yI zI rgbI data (i + 1) _ cloud' hp hd
        simp at this

theorem parseBinaryGo_allfinite (n : Nat) :
    ∀ (h : PCDHeader) (xI yI zI : Nat) (rgbI : Option Nat) (data : List Nat)
      (i : Nat) (cloud cloud' : PointCloud),
      (∀ k, k < n →
        (isFinite32 (parseRecord h xI yI zI rgbI data ((i + k) * h.pointSize)).x &&
         isFinite32 (parseRecord h xI yI zI rgbI data ((i + k) * h.pointSize)).y &&
         isFinite32 (parseRecord h xI yI zI rgbI data ((i + k) * h.pointSize)).z) = true) →
      parseBinaryGo h xI yI zI rgbI data i n cloud = some cloud' →
      cloud'.is_dense = cloud.is_dense := by
  induction n with
  | zero =>
    intro h xI yI zI rgbI data i cloud cloud' _ hp
    simp only [parseBinaryGo, Option.some.injEq] at hp
    rw [← hp]
  | succ n ih =>
    intro h xI yI zI rgbI data i cloud cloud' hall hp
    have h0 := hall 0 (by omega)
    rw [Nat.add_zero] at h0
    simp only [parseBinaryGo] at hp
    split at hp
    · exact absurd hp (by simp)
    · have hrec := ih h xI yI zI rgbI data (i + 1) _ cloud'
        (fun k _hk => by
          have := hall (k + 1) (by omega)
          rw [show i + (k + 1) = i + 1 + k from by omega] at this
          exact this)
        hp
      simpa using hrec

theorem loadASCIIGo_mono (n : Nat) :
    ∀ (nf xI yI zI : Nat) (rgbI : Option Nat) (lines : List (List Nat))
      (cloud : PointCloud),
      (loadASCIIGo nf xI yI zI rgbI n lines cloud).is_dense = true →
      cloud.is_dense = true := by
  induction n with
  | zero =>
    intro nf xI yI zI rgbI lines cloud hd
    simpa [loadASCIIGo] using hd
  | succ n ih =>
    intro nf xI yI zI rgbI lines cloud hd
    match lines with
    | [] => simpa [loadASCIIGo] using hd
    | vals :: rest =>
      simp only [loadASCIIGo] at hd
      split at hd
      · exact ih nf xI yI zI rgbI rest cloud hd
      · split at hd
        · have := ih nf xI yI zI rgbI rest _ hd
          exact this
        · have := ih nf xI yI zI rgbI rest _ hd
          simp at this

theorem loadASCIIGo_allfinite (n : Nat) :
    ∀ (nf xI yI zI : Nat) (rgbI : Option Nat) (lines : List (List Nat))
      (cloud : PointCloud),
      (∀ vals ∈ lines, vals.length < nf ∨
        (isFinite32 (vals.getD xI 0) && isFinite32 (vals.getD yI 0) &&
          isFinite32 (vals.getD zI 0)) = true) →
      (loadASCIIGo nf xI yI zI rgbI n lines cloud).is_dense = cloud.is_dense := by
  induction n with
  | zero =>
    intro nf xI yI zI rgbI lines cloud _
    simp [loadASCIIGo]
  | succ n ih =>
    intro nf xI yI zI rgbI lines cloud hall
    match lines with
    | [] => simp [loadASCIIGo]
    | vals :: rest =>
      have hrest : ∀ v ∈ rest, v.length < nf ∨
          (isFinite32 (v.getD xI 0) && isFinite32 (v.getD yI 0) &&
            isFinite32 (v.getD zI 0)) = true :=
        fun v hv => hall v (by simp [hv])
      simp only [loadASCIIGo]
      split
      · exact ih nf xI yI zI rgbI rest cloud hrest
      · rename_i hlong
        rcases hall vals (by simp) with hshort | hfin
        · exact absurd hshort hlong
        · rw [if_pos hfin]
          simpa using ih nf xI yI zI rgbI rest _ hrest

/-- C6: the drop-and-flag policy of the container-A decode loops.  In
the binary loop, a record whose decoded `x`, `y` or `z` is non-finite
is not pushed, clears `is_dense` and decoding continues with the next
record, while a finite record is appended with `is_dense` untouched;
when the loop succeeds, `is_dense` can only have moved from `true` to
`false` (never back), and it is unchanged — so still `true` when
starting from a fresh collection — whenever every decoded record is
finite.  The ASCII loop obeys the same policy. -/
theorem pcd_density_invariant :
    (∀ (h : PCDHeader) (xI yI zI : Nat) (rgbI : Option Nat) (data : List Nat)
        (i n : Nat) (cloud : PointCloud),
        i * h.pointSize + h.pointSize ≤ data.length →
        (isFinite32 (parseRecord h xI yI zI rgbI data (i * h.pointSize)).x &&
         isFinite32 (parseRecord h xI yI zI rgbI data (i * h.pointSize)).y &&
         isFinite32 (parseRecord h xI yI zI rgbI data (i * h.pointSize)).z) = false →
        parseBinaryGo h xI yI zI rgbI data i (n + 1) cloud =
          parseBinaryGo h xI yI zI rgbI data (i + 1) n { cloud with is_dense := false }) ∧
    (∀ (h : PCDHeader) (xI yI zI : Nat) (rgbI : Option Nat) (data : List Nat)
        (i n : Nat) (cloud : PointCloud),
        i * h.pointSize + h.pointSize ≤ data.length →
        (isFinite32 (parseRecord h xI yI zI rgbI data (i * h.pointSize)).x &&
         isFinite32 (parseRecord h xI yI zI rgbI data (i * h.pointSize)).y &&
         isFinite32 (parseRecord h xI yI zI rgbI data (i * h.pointSize)).z) = true →
        parseBinaryGo h xI yI zI rgbI data i (n + 1) cloud =
          parseBinaryGo h xI yI zI rgbI data (i + 1) n
            { cloud with points := cloud.points ++
                [parseRecord h xI yI zI rgbI data (i * h.pointSize)] }) ∧
    (∀ (h : PCDHeader) (xI yI zI : Nat) (rgbI : Option Nat) (data : List Nat)
        (i n : Nat) (cloud cloud' : PointCloud),
        parseBinaryGo h xI yI zI rgbI data i n cloud = some cloud' →
        cloud'.is_dense = true → cloud.is_dense = true) ∧
    (∀ (h : PCDHeader) (xI yI zI : Nat) (rgbI : Option Nat) (data : List Nat)
        (i n : Nat) (cloud cloud' : PointCloud),
        (∀ k, k < n →
          (isFinite32 (parseRecord h xI yI zI rgbI data ((i + k) * h.pointSize)).x &&
           isFinite32 (parseRecord h xI yI zI rgbI data ((i + k) * h.pointSize)).y &&
           isFinite32 (parseRecord h xI yI zI rgbI data ((i + k) * h.pointSize)).z) = true) →
        parseBinaryGo h xI yI zI rgbI data i n cloud = some cloud' →
        cloud'.is_dense = cloud.is_dense) ∧
    (∀ (nf xI yI zI : Nat) (rgbI : Option Nat) (n : Nat) (vals : List Nat)
        (rest : List (List Nat)) (cloud : PointCloud),
        ¬ vals.length < nf →
        (isFinite32 (vals.getD xI 0) && isFinite32 (vals.getD yI 0) &&
          isFinite32 (vals.getD zI 0)) = false →
        loadASCIIGo nf xI yI zI rgbI (n + 1) (vals :: rest) cloud =
          loadASCIIGo nf xI yI zI rgbI n rest { cloud with is_dense := false }) ∧
    (∀ (nf xI yI zI : Nat) (rgbI : Option Nat) (n : Nat) (lines : List (List Nat))
        (cloud : PointCloud),
        (loadASCIIGo nf xI yI zI rgbI n lines cloud).is_dense = true →
        cloud.is_dense = true) ∧
    (∀ (nf xI yI zI : Nat) (rgbI : Option Nat) (n : Nat) (lines : List (List Nat))
        (cloud : PointCloud),
        (∀ vals ∈ lines, vals.length < nf ∨
          (isFinite32 (vals.getD xI 0) && isFinite32 (vals.getD yI 0) &&
            isFinite32 (vals.getD zI 0)) = true) →
        (loadASCIIGo nf xI yI zI rgbI n lines cloud).is_dense = cloud.is_dense) := by
  refine ⟨?_, ?_, ?_, ?_, ?_, ?_, ?_⟩
  · intro h xI yI zI rgbI data i n cloud hbound hnf
    simp only [parseBinaryGo]
    rw [if_neg (by omega), if_neg (by simp [hnf])]
  · intro h xI yI zI rgbI data i n cloud hbound hfin
    simp only [parseBinaryGo]
    rw [if_neg (by omega), if_pos hfin]
  · intro h xI yI zI rgbI data i n cloud cloud' hp hd
    exact parseBinaryGo_mono n h xI yI zI rgbI data i cloud cloud' hp hd
  · intro h xI yI zI rgbI data i n cloud cloud' hall hp
    exact parseBinaryGo_allfinite n h xI yI zI rgbI data i cloud cloud' hall hp
  · intro nf xI yI zI rgbI n vals rest cloud hlong hnf
    simp only [loadASCIIGo]
    rw [if_neg hlong, if_neg (fun hc => absurd (hnf.symm.trans hc) (by decide))]
  · intro nf xI yI zI rgbI n lines cloud hd
    exact loadASCIIGo_mono n nf xI yI zI rgbI lines cloud hd
  · intro nf xI yI zI rgbI n lines cloud hall
    exact loadASCIIGo_allfinite n nf xI yI zI rgbI lines cloud hall

/-- Witness for C6 at concrete records: a binary record whose x is
+infinity (bit pattern 0x7F800000) is dropped and clears `is_dense`; a
record with finite x = 1.0f is pushed; the monotonicity and all-finite
conjuncts instantiated on concrete loops; and the same for the ASCII
loop. -/
theorem pcd_density_invariant_witness :
    parseBinaryGo (xyzrgbHeader 1) 0 1 2 (some 3)
        [0, 0, 128, 127, 0, 0, 0, 0, 0, 0, 0, 0, 0, 0, 0, 0] 0 1 ⟨[], true⟩ =
      parseBinaryGo (xyzrgbHeader 1) 0 1 2 (some 3)
        [0, 0, 128, 127, 0, 0, 0, 0, 0, 0, 0, 0, 0, 0, 0, 0] 1 0 ⟨[], false⟩ ∧
    parseBinaryGo (xyzrgbHeader 1) 0 1 2 (some 3)
        [0, 0, 128, 63, 0, 0, 0, 0, 0, 0, 0, 0, 0, 0, 0, 0] 0 1 ⟨[], true⟩ =
      parseBinaryGo (xyzrgbHeader 1) 0 1 2 (some 3)
        [0, 0, 128, 63, 0, 0, 0, 0, 0, 0, 0, 0, 0, 0, 0, 0] 1 0
        ⟨[⟨1065353216, 0, 0, 0, 0, 0⟩], true⟩ ∧
    (⟨[], true⟩ : PointCloud).is_dense = true ∧
    (⟨[⟨1065353216, 0, 0, 0, 0, 0⟩], true⟩ : PointCloud).is_dense =
      (⟨[], true⟩ : PointCloud).is_dense ∧
    loadASCIIGo 4 0 1 2 (some 3) 1 [[2139095040, 0, 0, 0]] ⟨[], true⟩ =
      loadASCIIGo 4 0 1 2 (some 3) 0 [] ⟨[], false⟩ ∧
    (⟨[], true⟩ : PointCloud).is_dense = true ∧
    (loadASCIIGo 4 0 1 2 (some 3) 1 [[1065353216, 0, 0, 0]] ⟨[], true⟩).is_dense =
      (⟨[], true⟩ : PointCloud).is_dense := by
  refine ⟨?_, ?_, ?_, ?_, ?_, ?_, ?_⟩
  · exact pcd_density_invariant.1 (xyzrgbHeader 1) 0 1 2 (some 3)
      [0, 0, 128, 127, 0, 0, 0, 0, 0, 0, 0, 0, 0, 0, 0, 0] 0 0 ⟨[], true⟩
      (by decide) (by decide)
  · exact pcd_density_invariant.2.1 (xyzrgbHeader 1) 0 1 2 (some 3)
      [0, 0, 128, 63, 0, 0, 0, 0, 0, 0, 0, 0, 0, 0, 0, 0] 0 0 ⟨[], true⟩
      (by decide) (by decide)
  · exact pcd_density_invariant.2.2.1 (xyzrgbHeader 0) 0 1 2 (some 3) [] 0 0
      ⟨[], true⟩ ⟨[], true⟩ (by decide) (by decide)
  · exact pcd_density_invariant.2.2.2.1 (xyzrgbHeader 1) 0 1 2 (some 3)
      [0, 0, 128, 63, 0, 0, 0, 0, 0, 0, 0, 0, 0, 0, 0, 0] 0 1 ⟨[], true⟩
      ⟨[⟨1065353216, 0, 0, 0, 0, 0⟩], true⟩ (by decide) (by decide)
  · exact pcd_density_invariant.2.2.2.2.1 4 0 1 2 (some 3) 0 [2139095040, 0, 0, 0] []
      ⟨[], true⟩ (by decide) (by decide)
  · exact pcd_density_invariant.2.2.2.2.2.1 4 0 1 2 (some 3) 0 [] ⟨[], true⟩ (by decide)
  · exact pcd_density_invariant.2.2.2.2.2.2 4 0 1 2 (some 3) 1 [[1065353216, 0, 0, 0]]
      ⟨[], true⟩ (by decide)

end PCDLoader

end ScanForge
